import Mathlib

/-!
Verification of the patient event processor (`Patient-Event-Processor.py`).

The script reads a JSON array of events, folds it into a table mapping
patient identifiers to views (display name, attached file list), and prints
one line per patient that has at least one attached file.  We embed the
decoded JSON values, the per-event fold loop (`process_events`, lines
47-94), the rendering loop (lines 98-101) and the driver's error dispatch
(lines 23-44) as Lean definitions and prove the specification's claims
about them.
-/

set_option autoImplicit false

/-- A decoded JSON value, as produced by `json.load`.  Numbers are modelled
as integers; the claims under study do not involve fractional values. -/
inductive Json where
  | null : Json
  | bool : Bool → Json
  | num : Int → Json
  | str : String → Json
  | arr : List Json → Json
  | obj : List (String × Json) → Json

/-- Python truthiness (`bool(x)`) of a decoded JSON value: `None`, `False`,
zero, the empty string, the empty list and the empty dict are falsy. -/
def truthy : Json → Bool
  | Json.null => false
  | Json.bool b => b
  | Json.num n => n != 0
  | Json.str s => s != ""
  | Json.arr xs => !xs.isEmpty
  | Json.obj kvs => !kvs.isEmpty

/-- A hashable JSON value usable as a Python dict key, canonicalised so that
structural equality of `Key` coincides with Python `==` on these values
(`True == 1` and `False == 0`, so booleans map onto their numeric value). -/
inductive Key where
  | knull : Key
  | knum : Int → Key
  | kstr : String → Key
deriving DecidableEq

/-- Hashing a decoded value as a dict key.  Lists and dicts are unhashable:
using one as a key raises `TypeError`, modelled by `none`. -/
def hashKey : Json → Option Key
  | Json.null => some Key.knull
  | Json.bool b => some (Key.knum (if b then 1 else 0))
  | Json.num n => some (Key.knum n)
  | Json.str s => some (Key.kstr s)
  | Json.arr _ => none
  | Json.obj _ => none

/-- Python `str()` of a decoded value, as interpolated into the placeholder
name.  Only hashable values can reach the interpolation site (an unhashable
`PatientID` raises before the entry is created), so the `arr`/`obj` clauses
are unreachable there and given a dummy value. -/
def pyStrOf : Json → String
  | Json.null => "None"
  | Json.bool b => if b then "True" else "False"
  | Json.num n => toString n
  | Json.str s => s
  | Json.arr _ => ""
  | Json.obj _ => ""

/-- `d.get(k)` on a decoded JSON object: the value at the first matching
key, if any (keys of a decoded object are unique). -/
def jget (kvs : List (String × Json)) (k : String) : Option Json :=
  match kvs with
  | [] => none
  | p :: rest => if p.1 = k then some p.2 else jget rest k

/-- The aggregated state of one patient: current display name and the
ordered list of attached file names (`{"name": ..., "files": [...]}`). -/
structure PatientView where
  name : String
  files : List String
deriving DecidableEq

/-- `patient_data`: an insertion-ordered mapping from patient key to view,
modelled as an association list with unique keys, new entries appended. -/
abbrev PatientTable := List (Key × PatientView)

/-- Lookup in the table (`patient_data[k]` / `k in patient_data`). -/
def tlookup (t : PatientTable) (k : Key) : Option PatientView :=
  match t with
  | [] => none
  | p :: rest => if p.1 = k then some p.2 else tlookup rest k

/-- Replace the display name of a view. -/
def withName (v : PatientView) (n : String) : PatientView :=
  PatientView.mk n v.files

/-- Append one file name to a view (`files.append`). -/
def pushFile (v : PatientView) (f : String) : PatientView :=
  PatientView.mk v.name (v.files ++ [f])

/-- In-place mutation of the view stored under an existing key, leaving
every other entry and the entry order untouched. -/
def modifyT (t : PatientTable) (k : Key) (f : PatientView → PatientView) : PatientTable :=
  t.map (fun kv => if kv.1 = k then (kv.1, f kv.2) else kv)

/-- `patient_data[patient_id]["name"] = name` (line 78). -/
def setNameT (t : PatientTable) (k : Key) (n : String) : PatientTable :=
  modifyT t k (fun v => withName v n)

/-- `patient_data[patient_id]["files"].append(file_name)` (line 88). -/
def addFileT (t : PatientTable) (k : Key) (f : String) : PatientTable :=
  modifyT t k (fun v => pushFile v f)

/-- The placeholder display name used until a creation event supplies a
real one: `f"Unknown Patient ({patient_id})"` (line 71). -/
def placeholder (pid : Json) : String :=
  "Unknown Patient (" ++ pyStrOf pid ++ ")"

/-- Lines 69-71: create the table entry on first reference, with the
placeholder name and an empty file list. -/
def ensureEntry (t : PatientTable) (k : Key) (pid : Json) : PatientTable :=
  if (tlookup t k).isSome then t else t ++ [(k, PatientView.mk (placeholder pid) [])]

/-- `event_type == "PatientCreated"` and the like: Python `==` between the
value read from the event (possibly `None`) and a string literal. -/
def isTypeTag (et : Option Json) (s : String) : Bool :=
  match et with
  | some (Json.str t) => t == s
  | _ => false

/-- The validity test `name and isinstance(name, str)` (lines 76 and 86)
applied to an optional field: succeeds exactly on non-empty strings. -/
def nonemptyString : Option Json → Option String
  | some (Json.str s) => if s = "" then none else some s
  | _ => none

/-- Lines 74-94: dispatch on the event type once the entry exists.
`PatientCreated` with a valid `Name` overwrites the name; a
`PatientCaseSlideAttached` with a valid `File` appends to the file list;
anything else (including invalid fields) leaves the table unchanged. -/
def applyEvent (t : PatientTable) (fields pl : List (String × Json)) (pidv : Json)
    (k : Key) : PatientTable :=
  let t1 := ensureEntry t k pidv
  if isTypeTag (jget fields "EventType") "PatientCreated" then
    match nonemptyString (jget pl "Name") with
    | some n => setNameT t1 k n
    | none => t1
  else if isTypeTag (jget fields "EventType") "PatientCaseSlideAttached" then
    match nonemptyString (jget pl "File") with
    | some f => addFileT t1 k f
    | none => t1
  else t1

/-- One iteration of the per-event loop (lines 47-94).  Returns the new
table and the list of events warned about on stderr this step (the live
warning at line 50 fires for non-dict events; the other per-event warnings
are commented out in the source).  `none` models the uncaught `TypeError`
raised at line 69 when a truthy `PatientID` is unhashable. -/
def stepEvent (t : PatientTable) (e : Json) : Option (PatientTable × List Json) :=
  match e with
  | Json.obj fields =>
    match jget fields "Payload" with
    | some (Json.obj pl) =>
      let pidv := (jget pl "PatientID").getD Json.null
      if truthy pidv then
        match hashKey pidv with
        | some k => some (applyEvent t fields pl pidv k, [])
        | none => none
      else some (t, [])
    | _ => some (t, [])
  | _ => some (t, [e])

/-- The fold over the event list from a given table and accumulated
warning list.  A raised `TypeError` aborts the loop (the warnings printed
so far remain printed). -/
def processEventsAux : PatientTable → List Json → List Json → List Json × Option PatientTable
  | t, w, [] => (w, some t)
  | t, w, e :: es =>
    match stepEvent t e with
    | none => (w, none)
    | some (t1, w1) => processEventsAux t1 (w ++ w1) es

/-- The whole folding phase of `process_events`: fold the decoded event
list from the empty table, returning the warnings emitted and the final
table (`none` when the loop raised). -/
def processEvents (es : List Json) : List Json × Option PatientTable :=
  processEventsAux [] [] es

/-- The key under which an event files its patient data: present exactly
when the event is a dict with a dict payload whose `PatientID` is truthy
and hashable. -/
def eventKey (e : Json) : Option Key :=
  match e with
  | Json.obj fields =>
    match jget fields "Payload" with
    | some (Json.obj pl) =>
      let pidv := (jget pl "PatientID").getD Json.null
      if truthy pidv then hashKey pidv else none
    | _ => none
  | _ => none

/-- An event that cannot raise: if its `PatientID` is truthy then it is
hashable.  (Lists and dicts are the only decoded values that are not.) -/
def hashableId (e : Json) : Bool :=
  match e with
  | Json.obj fields =>
    match jget fields "Payload" with
    | some (Json.obj pl) =>
      let pidv := (jget pl "PatientID").getD Json.null
      if truthy pidv then (hashKey pidv).isSome else true
    | _ => true
  | _ => true

/-- One rendered summary line per patient with at least one file, in table
insertion order (lines 98-101): the name, a colon-space, then the files
joined with a comma-space separator. -/
def renderLines (t : PatientTable) : List String :=
  match t with
  | [] => []
  | kv :: rest =>
    if kv.2.files.isEmpty then renderLines rest
    else (kv.2.name ++ ": " ++ String.intercalate ", " kv.2.files) :: renderLines rest

/-- The text written to stdout: each rendered line followed by a newline
(each `print` call appends one). -/
def renderOut (t : PatientTable) : String :=
  String.join ((renderLines t).map (fun l => l ++ "\n"))

/-- A single-quote character, used to build the literal error messages. -/
def sglQuote : String := String.singleton (Char.ofNat 39)

/-- A string wrapped in single quotes, as the f-strings of the error
messages render the file path. -/
def quoted (s : String) : String := sglQuote ++ s ++ sglQuote

/-- `os.path.join(os.getcwd(), file_path)` (line 20) for POSIX paths: an
absolute second component wins, otherwise the parts are joined with a
separator. -/
def osPathJoin (a b : String) : String :=
  if b.startsWith "/" then b
  else if a = "" || a.endsWith "/" then a ++ b
  else a ++ "/" ++ b

/-- Python `type(x)` of a decoded value, as rendered into the
unexpected-shape error message. -/
def pyTypeOf : Json → String
  | Json.null => "<class " ++ quoted "NoneType" ++ ">"
  | Json.bool _ => "<class " ++ quoted "bool" ++ ">"
  | Json.num _ => "<class " ++ quoted "int" ++ ">"
  | Json.str _ => "<class " ++ quoted "str" ++ ">"
  | Json.arr _ => "<class " ++ quoted "list" ++ ">"
  | Json.obj _ => "<class " ++ quoted "dict" ++ ">"

/-- The outcome of the attempt to open and decode the input file, which is
external to the program: either one of the three exception classes caught
at lines 28-39, or the decoded value. -/
inductive ReadResult where
  | notFound : ReadResult
  | badJson : ReadResult
  | ioError : String → ReadResult
  | ok : Json → ReadResult

/-- The externally observable outcome of one run of `process_events`: the
process exit code, the text written to stdout, the driver's own stderr
messages, the events warned about by the fold (one stderr line each) and
whether an uncaught exception traceback was printed. -/
structure RunOutcome where
  exitCode : Nat
  stdout : String
  stderrMsgs : List String
  eventWarnings : List Json
  uncaughtTraceback : Bool

/-- The driver (lines 23-101): map the read outcome to an exit code and the
output streams.  Each exception class caught while reading exits 1 with its
message; a non-list top-level value exits 1 with the unexpected-shape
message; otherwise the events are folded and the summary printed, and an
uncaught `TypeError` from the fold terminates the process with exit code 1
and a traceback, with nothing yet written to stdout. -/
def run (cwd filePath : String) (r : ReadResult) : RunOutcome :=
  let full := osPathJoin cwd filePath
  match r with
  | ReadResult.notFound =>
    RunOutcome.mk 1 "" ["Error: Input file " ++ quoted full ++ " not found."] [] false
  | ReadResult.badJson =>
    RunOutcome.mk 1 "" ["Error: Invalid JSON in file " ++ quoted full ++ "."] [] false
  | ReadResult.ioError msg =>
    RunOutcome.mk 1 ""
      ["An unexpected error occurred while reading the file: " ++ msg] [] false
  | ReadResult.ok v =>
    match v with
    | Json.arr es =>
      match processEvents es with
      | (w, some t) => RunOutcome.mk 0 (renderOut t) [] w false
      | (w, none) => RunOutcome.mk 1 "" [] w true
    | other =>
      RunOutcome.mk 1 ""
        ["Error: Expected JSON array of events, but got " ++ pyTypeOf other ++
          " from " ++ quoted full ++ "."] [] false

/-- A well-formed `PatientCreated` event, as in the example data: the
payload carries the identifier and the name. -/
def evCreated (pid n : Json) : Json :=
  Json.obj [("EventType", Json.str "PatientCreated"),
    ("Payload", Json.obj [("PatientID", pid), ("Name", n)])]

/-- A well-formed `PatientCaseSlideAttached` event: the payload carries the
identifier and the attached file name. -/
def evAttached (pid f : Json) : Json :=
  Json.obj [("EventType", Json.str "PatientCaseSlideAttached"),
    ("Payload", Json.obj [("PatientID", pid), ("File", f)])]

/-- The five-event input of Scenario A of the specification. -/
def scenarioA : List Json :=
  [evCreated (Json.str "p1") (Json.str "Olivia"),
   evAttached (Json.str "p1") (Json.str "d9392a98.tiff"),
   evAttached (Json.str "p1") (Json.str "f796f432.tiff"),
   evCreated (Json.str "p2") (Json.str "Sophie"),
   evAttached (Json.str "p2") (Json.str "ccd803fd.tiff")]

/-- Whether a decoded value is a dict (`isinstance(event, dict)`). -/
def isObjB : Json → Bool
  | Json.obj _ => true
  | _ => false

/-- Whether a decoded value is a list (`isinstance(events, list)`). -/
def isArrB : Json → Bool
  | Json.arr _ => true
  | _ => false

/-- Whether an event is one that overwrites the display name stored under
key `k`: a dict whose payload is a dict with a truthy `PatientID` hashing
to `k`, tagged `PatientCreated`, with a non-empty-string `Name`. -/
def writesName (k : Key) (e : Json) : Bool :=
  match e with
  | Json.obj fields =>
    match jget fields "Payload" with
    | some (Json.obj pl) =>
      let pidv := (jget pl "PatientID").getD Json.null
      truthy pidv && decide (hashKey pidv = some k) &&
        isTypeTag (jget fields "EventType") "PatientCreated" &&
        (nonemptyString (jget pl "Name")).isSome
    | _ => false
  | _ => false

/-- Joining a list of strings with the separator `", "`, written as the
specification describes it (first file, then separator-file pairs). -/
def joinSep : List String → String
  | [] => ""
  | [f] => f
  | f :: fs => f ++ ", " ++ joinSep fs

/-- The rendering as the specification words it: keep exactly the entries
with a non-empty file list, in table order, and map each to its line. -/
def specRenderLines (t : PatientTable) : List String :=
  (t.filter (fun kv => !kv.2.files.isEmpty)).map
    (fun kv => kv.2.name ++ ": " ++ joinSep kv.2.files)

/-- A `PatientCreated` event whose payload has no `Name` field at all. -/
def evCreatedNoName (pid : Json) : Json :=
  Json.obj [("EventType", Json.str "PatientCreated"),
    ("Payload", Json.obj [("PatientID", pid)])]

/-- The effect of the event dispatch of `applyEvent` on the single view it
touches, used to state what `applyEvent` does at its own key. -/
def applyView (fields pl : List (String × Json)) (v : PatientView) : PatientView :=
  if isTypeTag (jget fields "EventType") "PatientCreated" then
    match nonemptyString (jget pl "Name") with
    | some n => withName v n
    | none => v
  else if isTypeTag (jget fields "EventType") "PatientCaseSlideAttached" then
    match nonemptyString (jget pl "File") with
    | some f => pushFile v f
    | none => v
  else v

/-- Unfolding lemma: lookup in the empty table. -/
theorem tlookup_nil (k : Key) : tlookup [] k = none := rfl

/-- Unfolding lemma: lookup under a cons. -/
theorem tlookup_cons (p : Key × PatientView) (rest : PatientTable) (k : Key) :
    tlookup (p :: rest) k = if p.1 = k then some p.2 else tlookup rest k := rfl

/-- Unfolding lemma: mutation under a cons. -/
theorem modifyT_cons (p : Key × PatientView) (rest : PatientTable) (k : Key)
    (f : PatientView → PatientView) :
    modifyT (p :: rest) k f =
      (if p.1 = k then (p.1, f p.2) else p) :: modifyT rest k f := rfl

/-- Looking up the modified key applies the mutation to the stored view. -/
theorem tlookup_modifyT_self (t : PatientTable) (k : Key) (f : PatientView → PatientView) :
    tlookup (modifyT t k f) k = (tlookup t k).map f := by
  induction t with
  | nil => rfl
  | cons p rest ih =>
    by_cases hp : p.1 = k
    · simp [modifyT_cons, tlookup_cons, hp]
    · simp [modifyT_cons, tlookup_cons, hp, ih]

/-- Looking up any other key is unaffected by the mutation. -/
theorem tlookup_modifyT_ne (t : PatientTable) (k k' : Key) (f : PatientView → PatientView)
    (h : k' ≠ k) : tlookup (modifyT t k f) k' = tlookup t k' := by
  induction t with
  | nil => rfl
  | cons p rest ih =>
    rw [modifyT_cons, tlookup_cons]
    by_cases hp : p.1 = k
    · have hp' : ¬ p.1 = k' := fun hc => h (hc.symm.trans hp)
      rw [if_pos hp, tlookup_cons, if_neg hp', if_neg hp']
      exact ih
    · rw [if_neg hp, tlookup_cons]
      by_cases hp' : p.1 = k'
      · rw [if_pos hp', if_pos hp']
      · rw [if_neg hp', if_neg hp']
        exact ih

/-- Appending an entry under a different key does not change a lookup. -/
theorem tlookup_append_ne (t : PatientTable) (k k' : Key) (v : PatientView)
    (h : k' ≠ k) : tlookup (t ++ [(k, v)]) k' = tlookup t k' := by
  induction t with
  | nil =>
    rw [List.nil_append, tlookup_cons, if_neg (fun hc => h hc.symm)]
  | cons p rest ih =>
    rw [List.cons_append, tlookup_cons, tlookup_cons]
    by_cases hp : p.1 = k'
    · rw [if_pos hp, if_pos hp]
    · rw [if_neg hp, if_neg hp]
      exact ih

/-- Appending an entry under an absent key makes it the looked-up view. -/
theorem tlookup_append_self (t : PatientTable) (k : Key) (v : PatientView)
    (h : tlookup t k = none) : tlookup (t ++ [(k, v)]) k = some v := by
  induction t with
  | nil =>
    rw [List.nil_append, tlookup_cons, if_pos rfl]
  | cons p rest ih =>
    rw [tlookup_cons] at h
    by_cases hp : p.1 = k
    · rw [if_pos hp] at h
      exact absurd h (by simp)
    · rw [if_neg hp] at h
      rw [List.cons_append, tlookup_cons, if_neg hp]
      exact ih h

/-- When the key is already present, `ensureEntry` does nothing. -/
theorem ensureEntry_of_isSome (t : PatientTable) (k : Key) (pid : Json)
    (h : (tlookup t k).isSome) : ensureEntry t k pid = t := by
  rw [ensureEntry, if_pos h]

/-- `ensureEntry` never changes the view stored under a present key. -/
theorem tlookup_ensureEntry_of_some (t : PatientTable) (k k' : Key) (pid : Json)
    (v : PatientView) (h : tlookup t k' = some v) :
    tlookup (ensureEntry t k pid) k' = some v := by
  by_cases hs : (tlookup t k).isSome
  · rw [ensureEntry, if_pos hs]
    exact h
  · rw [ensureEntry, if_neg hs]
    by_cases hk : k' = k
    · subst hk
      rw [h] at hs
      exact absurd rfl hs
    · rw [tlookup_append_ne t k k' _ hk]
      exact h

/-- `ensureEntry` does not change lookups under other keys. -/
theorem tlookup_ensureEntry_ne (t : PatientTable) (k k' : Key) (pid : Json)
    (h : k' ≠ k) : tlookup (ensureEntry t k pid) k' = tlookup t k' := by
  by_cases hs : (tlookup t k).isSome
  · rw [ensureEntry, if_pos hs]
  · rw [ensureEntry, if_neg hs]
    exact tlookup_append_ne t k k' _ h

/-- What `ensureEntry` stores under its key: the existing view if present,
otherwise the fresh placeholder view. -/
theorem tlookup_ensureEntry_self (t : PatientTable) (k : Key) (pid : Json) :
    tlookup (ensureEntry t k pid) k =
      some ((tlookup t k).getD (PatientView.mk (placeholder pid) [])) := by
  cases hv : tlookup t k with
  | some v =>
    rw [ensureEntry, if_pos (by rw [hv]; rfl), hv]
    rfl
  | none =>
    rw [ensureEntry, if_neg (by rw [hv]; simp)]
    rw [tlookup_append_self t k _ hv]
    rfl

/-- After `ensureEntry` the key is present. -/
theorem tlookup_ensureEntry_isSome (t : PatientTable) (k : Key) (pid : Json) :
    (tlookup (ensureEntry t k pid) k).isSome := by
  rw [tlookup_ensureEntry_self]
  rfl

/-- `applyEvent` never touches entries under other keys. -/
theorem tlookup_applyEvent_ne (t : PatientTable) (fields pl : List (String × Json))
    (pidv : Json) (k k' : Key) (h : k' ≠ k) :
    tlookup (applyEvent t fields pl pidv k) k' = tlookup t k' := by
  simp only [applyEvent]
  by_cases h1 : isTypeTag (jget fields "EventType") "PatientCreated" = true
  · rw [if_pos h1]
    cases hn : nonemptyString (jget pl "Name") with
    | some n =>
      simp only [setNameT]
      rw [tlookup_modifyT_ne _ _ _ _ h, tlookup_ensureEntry_ne _ _ _ _ h]
    | none =>
      rw [tlookup_ensureEntry_ne _ _ _ _ h]
  · rw [if_neg h1]
    by_cases h2 : isTypeTag (jget fields "EventType") "PatientCaseSlideAttached" = true
    · rw [if_pos h2]
      cases hf : nonemptyString (jget pl "File") with
      | some f =>
        simp only [addFileT]
        rw [tlookup_modifyT_ne _ _ _ _ h, tlookup_ensureEntry_ne _ _ _ _ h]
      | none =>
        rw [tlookup_ensureEntry_ne _ _ _ _ h]
    · rw [if_neg h2, tlookup_ensureEntry_ne _ _ _ _ h]

/-- What `applyEvent` stores under its own key: the dispatch applied to the
looked-up (or freshly created) view. -/
theorem tlookup_applyEvent_self (t : PatientTable) (fields pl : List (String × Json))
    (pidv : Json) (k : Key) :
    tlookup (applyEvent t fields pl pidv k) k =
      some (applyView fields pl
        ((tlookup t k).getD (PatientView.mk (placeholder pidv) []))) := by
  simp only [applyEvent, applyView]
  by_cases h1 : isTypeTag (jget fields "EventType") "PatientCreated" = true
  · rw [if_pos h1, if_pos h1]
    cases hn : nonemptyString (jget pl "Name") with
    | some n =>
      simp only [setNameT]
      rw [tlookup_modifyT_self, tlookup_ensureEntry_self]
      rfl
    | none =>
      rw [tlookup_ensureEntry_self]
  · rw [if_neg h1, if_neg h1]
    by_cases h2 : isTypeTag (jget fields "EventType") "PatientCaseSlideAttached" = true
    · rw [if_pos h2, if_pos h2]
      cases hf : nonemptyString (jget pl "File") with
      | some f =>
        simp only [addFileT]
        rw [tlookup_modifyT_self, tlookup_ensureEntry_self]
        rfl
      | none =>
        rw [tlookup_ensureEntry_self]
    · rw [if_neg h2, if_neg h2, tlookup_ensureEntry_self]

/-- The dispatch only ever appends to the file list. -/
theorem applyView_files (fields pl : List (String × Json)) (v : PatientView) :
    v.files <+: (applyView fields pl v).files := by
  unfold applyView
  by_cases h1 : isTypeTag (jget fields "EventType") "PatientCreated" = true
  · rw [if_pos h1]
    cases hn : nonemptyString (jget pl "Name") with
    | some n => exact List.prefix_refl _
    | none => exact List.prefix_refl _
  · rw [if_neg h1]
    by_cases h2 : isTypeTag (jget fields "EventType") "PatientCaseSlideAttached" = true
    · rw [if_pos h2]
      cases hf : nonemptyString (jget pl "File") with
      | some f => exact List.prefix_append _ _
      | none => exact List.prefix_refl _
    · rw [if_neg h2]

/-- The dispatch leaves the name alone unless the event is a
`PatientCreated` with a valid name. -/
theorem applyView_name (fields pl : List (String × Json)) (v : PatientView)
    (h : isTypeTag (jget fields "EventType") "PatientCreated" = false ∨
      nonemptyString (jget pl "Name") = none) :
    (applyView fields pl v).name = v.name := by
  unfold applyView
  by_cases h1 : isTypeTag (jget fields "EventType") "PatientCreated" = true
  · rw [if_pos h1]
    cases h with
    | inl hfalse => rw [hfalse] at h1; exact absurd h1 (by simp)
    | inr hnone => rw [hnone]
  · rw [if_neg h1]
    by_cases h2 : isTypeTag (jget fields "EventType") "PatientCaseSlideAttached" = true
    · rw [if_pos h2]
      cases hf : nonemptyString (jget pl "File") with
      | some f => rfl
      | none => rfl
    · rw [if_neg h2]

/-- Full case analysis of one successful loop iteration: either the event
carries no usable key and the table is unchanged with at most a warning, or
the event acts on its own key through `applyEvent` with no warning. -/
theorem stepEvent_spec (t : PatientTable) (e : Json) (t' : PatientTable) (w : List Json)
    (h : stepEvent t e = some (t', w)) :
    (t' = t ∧ eventKey e = none) ∨
    (∃ fields pl k, e = Json.obj fields ∧
      jget fields "Payload" = some (Json.obj pl) ∧
      truthy ((jget pl "PatientID").getD Json.null) = true ∧
      hashKey ((jget pl "PatientID").getD Json.null) = some k ∧
      eventKey e = some k ∧ w = [] ∧
      t' = applyEvent t fields pl ((jget pl "PatientID").getD Json.null) k) := by
  cases e with
  | null =>
    simp only [stepEvent, Option.some.injEq, Prod.mk.injEq] at h
    exact Or.inl ⟨h.1.symm, rfl⟩
  | bool b =>
    simp only [stepEvent, Option.some.injEq, Prod.mk.injEq] at h
    exact Or.inl ⟨h.1.symm, rfl⟩
  | num n =>
    simp only [stepEvent, Option.some.injEq, Prod.mk.injEq] at h
    exact Or.inl ⟨h.1.symm, rfl⟩
  | str s =>
    simp only [stepEvent, Option.some.injEq, Prod.mk.injEq] at h
    exact Or.inl ⟨h.1.symm, rfl⟩
  | arr xs =>
    simp only [stepEvent, Option.some.injEq, Prod.mk.injEq] at h
    exact Or.inl ⟨h.1.symm, rfl⟩
  | obj fields =>
    simp only [stepEvent] at h
    cases hp : jget fields "Payload" with
    | none =>
      simp only [hp, Option.some.injEq, Prod.mk.injEq] at h
      refine Or.inl ⟨h.1.symm, ?_⟩
      simp only [eventKey, hp]
    | some pv =>
      cases pv with
      | obj pl =>
        simp only [hp] at h
        by_cases htr : truthy ((jget pl "PatientID").getD Json.null) = true
        · rw [if_pos htr] at h
          cases hk : hashKey ((jget pl "PatientID").getD Json.null) with
          | none =>
            rw [hk] at h
            exact absurd h (by simp)
          | some k =>
            rw [hk] at h
            simp only [Option.some.injEq, Prod.mk.injEq] at h
            refine Or.inr ⟨fields, pl, k, rfl, hp, htr, hk, ?_, h.2.symm, h.1.symm⟩
            simp only [eventKey, hp, htr, if_true, hk]
        · rw [if_neg htr] at h
          simp only [Option.some.injEq, Prod.mk.injEq] at h
          refine Or.inl ⟨h.1.symm, ?_⟩
          simp [eventKey, hp, htr]
      | null =>
        simp only [hp, Option.some.injEq, Prod.mk.injEq] at h
        refine Or.inl ⟨h.1.symm, ?_⟩
        simp only [eventKey, hp]
      | bool b =>
        simp only [hp, Option.some.injEq, Prod.mk.injEq] at h
        refine Or.inl ⟨h.1.symm, ?_⟩
        simp only [eventKey, hp]
      | num n =>
        simp only [hp, Option.some.injEq, Prod.mk.injEq] at h
        refine Or.inl ⟨h.1.symm, ?_⟩
        simp only [eventKey, hp]
      | str s =>
        simp only [hp, Option.some.injEq, Prod.mk.injEq] at h
        refine Or.inl ⟨h.1.symm, ?_⟩
        simp only [eventKey, hp]
      | arr xs =>
        simp only [hp, Option.some.injEq, Prod.mk.injEq] at h
        refine Or.inl ⟨h.1.symm, ?_⟩
        simp only [eventKey, hp]

/-- A successful step never changes entries under keys other than the
event's own key. -/
theorem stepEvent_frame (t : PatientTable) (e : Json) (t' : PatientTable) (w : List Json)
    (h : stepEvent t e = some (t', w)) (k : Key) (hk : eventKey e ≠ some k) :
    tlookup t' k = tlookup t k := by
  cases stepEvent_spec t e t' w h with
  | inl hcase => rw [hcase.1]
  | inr hcase =>
    obtain ⟨fields, pl, k0, _, _, _, _, hek, _, ht'⟩ := hcase
    have hne : k ≠ k0 := by
      intro hc
      exact hk (hc ▸ hek)
    rw [ht', tlookup_applyEvent_ne _ _ _ _ _ _ hne]

/-- A successful step never drops an entry and never shrinks a file list. -/
theorem stepEvent_mono (t : PatientTable) (e : Json) (t' : PatientTable) (w : List Json)
    (h : stepEvent t e = some (t', w)) (k : Key) (v : PatientView)
    (hv : tlookup t k = some v) :
    ∃ v', tlookup t' k = some v' ∧ v.files <+: v'.files := by
  cases stepEvent_spec t e t' w h with
  | inl hcase =>
    exact ⟨v, hcase.1 ▸ hv, List.prefix_refl _⟩
  | inr hcase =>
    obtain ⟨fields, pl, k0, _, _, _, _, _, _, ht'⟩ := hcase
    by_cases hkk : k = k0
    · subst hkk
      rw [ht', tlookup_applyEvent_self, hv]
      exact ⟨_, rfl, applyView_files _ _ _⟩
    · rw [ht', tlookup_applyEvent_ne _ _ _ _ _ _ hkk]
      exact ⟨v, hv, List.prefix_refl _⟩

/-- Presence after a successful step: an entry exists afterwards iff it
existed before or the event's own key is that entry's key. -/
theorem stepEvent_isSome_iff (t : PatientTable) (e : Json) (t' : PatientTable)
    (w : List Json) (h : stepEvent t e = some (t', w)) (k : Key) :
    (tlookup t' k).isSome ↔ ((tlookup t k).isSome ∨ eventKey e = some k) := by
  cases stepEvent_spec t e t' w h with
  | inl hcase =>
    rw [hcase.1, hcase.2]
    simp
  | inr hcase =>
    obtain ⟨fields, pl, k0, _, _, _, _, hek, _, ht'⟩ := hcase
    by_cases hkk : k = k0
    · subst hkk
      rw [ht', tlookup_applyEvent_self, hek]
      simp
    · rw [ht', tlookup_applyEvent_ne _ _ _ _ _ _ hkk, hek]
      simp only [Option.some.injEq]
      constructor
      · exact fun hs => Or.inl hs
      · intro hor
        cases hor with
        | inl hs => exact hs
        | inr heq => exact absurd heq.symm hkk

/-- A successful step of an event that does not write the name stored
under `k` preserves that name (and still only grows the file list). -/
theorem stepEvent_name (t : PatientTable) (e : Json) (t' : PatientTable) (w : List Json)
    (h : stepEvent t e = some (t', w)) (k : Key) (v : PatientView)
    (hw : writesName k e = false) (hv : tlookup t k = some v) :
    ∃ v', tlookup t' k = some v' ∧ v'.name = v.name ∧ v.files <+: v'.files := by
  cases stepEvent_spec t e t' w h with
  | inl hcase =>
    exact ⟨v, hcase.1 ▸ hv, rfl, List.prefix_refl _⟩
  | inr hcase =>
    obtain ⟨fields, pl, k0, he, hp, htr, hhk, _, _, ht'⟩ := hcase
    by_cases hkk : k = k0
    · subst hkk
      rw [ht', tlookup_applyEvent_self, hv]
      refine ⟨_, rfl, ?_, applyView_files _ _ _⟩
      apply applyView_name
      subst he
      simp only [writesName, hp, htr, hhk, decide_True, Bool.true_and,
        Bool.and_eq_false_iff] at hw
      cases hw with
      | inl hfalse => exact Or.inl hfalse
      | inr hnone =>
        cases hn : nonemptyString (jget pl "Name") with
        | none => exact Or.inr rfl
        | some n => rw [hn] at hnone; exact absurd hnone (by simp)
    · rw [ht', tlookup_applyEvent_ne _ _ _ _ _ _ hkk]
      exact ⟨v, hv, rfl, List.prefix_refl _⟩

/-- Steps of events whose truthy `PatientID`s are hashable never raise. -/
theorem stepEvent_isSome_of_hashableId (t : PatientTable) (e : Json)
    (h : hashableId e = true) : (stepEvent t e).isSome := by
  cases e with
  | null => rfl
  | bool b => rfl
  | num n => rfl
  | str s => rfl
  | arr xs => rfl
  | obj fields =>
    simp only [stepEvent]
    simp only [hashableId] at h
    cases hp : jget fields "Payload" with
    | none => simp [hp]
    | some pv =>
      cases pv with
      | obj pl =>
        simp only [hp] at h ⊢
        by_cases htr : truthy ((jget pl "PatientID").getD Json.null) = true
        · rw [if_pos htr] at h ⊢
          cases hk : hashKey ((jget pl "PatientID").getD Json.null) with
          | none => rw [hk] at h; exact absurd h (by simp)
          | some k => rfl
        · rw [if_neg htr]
          rfl
      | null => simp [hp]
      | bool b => simp [hp]
      | num n => simp [hp]
      | str s => simp [hp]
      | arr xs => simp [hp]

/-- Unfolding lemma: folding the empty event list. -/
theorem processEventsAux_nil (t : PatientTable) (w : List Json) :
    processEventsAux t w [] = (w, some t) := rfl

/-- Unfolding lemma: folding a cons. -/
theorem processEventsAux_cons (t : PatientTable) (w : List Json) (e : Json) (es : List Json) :
    processEventsAux t w (e :: es) =
      match stepEvent t e with
      | none => (w, none)
      | some (t1, w1) => processEventsAux t1 (w ++ w1) es := rfl

/-- Folding a concatenation runs the two halves in sequence, with a raise
in the first half aborting the whole fold. -/
theorem processEventsAux_append (xs ys : List Json) :
    ∀ (t : PatientTable) (w : List Json),
    processEventsAux t w (xs ++ ys) =
      match processEventsAux t w xs with
      | (w1, some t1) => processEventsAux t1 w1 ys
      | (w1, none) => (w1, none) := by
  induction xs with
  | nil =>
    intro t w
    rfl
  | cons e xs ih =>
    intro t w
    rw [List.cons_append, processEventsAux_cons, processEventsAux_cons]
    cases hs : stepEvent t e with
    | none => rfl
    | some p => exact ih p.1 (w ++ p.2)

/-- A completed fold never drops an entry and never shrinks a file list. -/
theorem foldAux_mono (es : List Json) :
    ∀ (t : PatientTable) (w w' : List Json) (T : PatientTable) (k : Key) (v : PatientView),
    processEventsAux t w es = (w', some T) → tlookup t k = some v →
    ∃ v', tlookup T k = some v' ∧ v.files <+: v'.files := by
  induction es with
  | nil =>
    intro t w w' T k v h hv
    rw [processEventsAux_nil] at h
    cases h
    exact ⟨v, hv, List.prefix_refl _⟩
  | cons e es ih =>
    intro t w w' T k v h hv
    rw [processEventsAux_cons] at h
    cases hs : stepEvent t e with
    | none => rw [hs] at h; cases h
    | some p =>
      rw [hs] at h
      obtain ⟨v1, hv1, hpre1⟩ := stepEvent_mono t e p.1 p.2 hs k v hv
      obtain ⟨v', hv', hpre2⟩ := ih p.1 (w ++ p.2) w' T k v1 h hv1
      exact ⟨v', hv', hpre1.trans hpre2⟩

/-- A completed fold of events none of which carry key `k` leaves the
entry under `k` (present or absent) exactly as it was. -/
theorem foldAux_frame (es : List Json) :
    ∀ (t : PatientTable) (w w' : List Json) (T : PatientTable) (k : Key),
    (∀ e ∈ es, eventKey e ≠ some k) →
    processEventsAux t w es = (w', some T) → tlookup T k = tlookup t k := by
  induction es with
  | nil =>
    intro t w w' T k _ h
    rw [processEventsAux_nil] at h
    cases h
    rfl
  | cons e es ih =>
    intro t w w' T k hk h
    rw [processEventsAux_cons] at h
    cases hs : stepEvent t e with
    | none => rw [hs] at h; cases h
    | some p =>
      rw [hs] at h
      have h1 := stepEvent_frame t e p.1 p.2 hs k (hk e (List.mem_cons_self e es))
      have h2 := ih p.1 (w ++ p.2) w' T k (fun x hx => hk x (List.mem_cons_of_mem e hx)) h
      rw [h2, h1]

/-- A completed fold of events none of which write the name under `k`
preserves the name stored under `k`. -/
theorem foldAux_name (es : List Json) :
    ∀ (t : PatientTable) (w w' : List Json) (T : PatientTable) (k : Key) (v : PatientView),
    (∀ e ∈ es, writesName k e = false) →
    processEventsAux t w es = (w', some T) → tlookup t k = some v →
    ∃ v', tlookup T k = some v' ∧ v'.name = v.name := by
  induction es with
  | nil =>
    intro t w w' T k v _ h hv
    rw [processEventsAux_nil] at h
    cases h
    exact ⟨v, hv, rfl⟩
  | cons e es ih =>
    intro t w w' T k v hk h hv
    rw [processEventsAux_cons] at h
    cases hs : stepEvent t e with
    | none => rw [hs] at h; cases h
    | some p =>
      rw [hs] at h
      obtain ⟨v1, hv1, hname1, _⟩ :=
        stepEvent_name t e p.1 p.2 hs k v (hk e (List.mem_cons_self e es)) hv
      obtain ⟨v', hv', hname2⟩ :=
        ih p.1 (w ++ p.2) w' T k v1 (fun x hx => hk x (List.mem_cons_of_mem e hx)) h hv1
      exact ⟨v', hv', hname2.trans hname1⟩

/-- Key-set characterisation of a completed fold: an entry exists in the
final table iff it existed initially or some folded event carries it. -/
theorem foldAux_keys (es : List Json) :
    ∀ (t : PatientTable) (w w' : List Json) (T : PatientTable) (k : Key),
    processEventsAux t w es = (w', some T) →
    ((tlookup T k).isSome ↔ ((tlookup t k).isSome ∨ ∃ e ∈ es, eventKey e = some k)) := by
  induction es with
  | nil =>
    intro t w w' T k h
    rw [processEventsAux_nil] at h
    cases h
    simp
  | cons e es ih =>
    intro t w w' T k h
    rw [processEventsAux_cons] at h
    cases hs : stepEvent t e with
    | none => rw [hs] at h; cases h
    | some p =>
      rw [hs] at h
      rw [ih p.1 (w ++ p.2) w' T k h, stepEvent_isSome_iff t e p.1 p.2 hs k]
      constructor
      · intro hor
        cases hor with
        | inl hin =>
          cases hin with
          | inl hbefore => exact Or.inl hbefore
          | inr hhere => exact Or.inr ⟨e, List.mem_cons_self e es, hhere⟩
        | inr hrest =>
          obtain ⟨x, hx, hkx⟩ := hrest
          exact Or.inr ⟨x, List.mem_cons_of_mem e hx, hkx⟩
      · intro hor
        cases hor with
        | inl hbefore => exact Or.inl (Or.inl hbefore)
        | inr hsome =>
          obtain ⟨x, hx, hkx⟩ := hsome
          cases List.mem_cons.mp hx with
          | inl hxe => exact Or.inl (Or.inr (hxe ▸ hkx))
          | inr hxs => exact Or.inr ⟨x, hxs, hkx⟩

/-- A fold of events whose truthy identifiers are all hashable completes
without raising. -/
theorem foldAux_total (es : List Json) :
    ∀ (t : PatientTable) (w : List Json),
    (∀ e ∈ es, hashableId e = true) → (processEventsAux t w es).2.isSome := by
  induction es with
  | nil =>
    intro t w _
    rfl
  | cons e es ih =>
    intro t w hok
    rw [processEventsAux_cons]
    cases hs : stepEvent t e with
    | none =>
      have := stepEvent_isSome_of_hashableId t e (hok e (List.mem_cons_self e es))
      rw [hs] at this
      exact absurd this (by simp)
    | some p =>
      exact ih p.1 (w ++ p.2) (fun x hx => hok x (List.mem_cons_of_mem e hx))

/-- Computing one step on a well-formed creation event with a valid name:
ensure the entry, then overwrite the name. -/
theorem stepEvent_evCreated (t : PatientTable) (pid : Json) (n : String) (k : Key)
    (hpid : truthy pid = true) (hk : hashKey pid = some k) (hn : n ≠ "") :
    stepEvent t (evCreated pid (Json.str n)) =
      some (setNameT (ensureEntry t k pid) k n, []) := by
  simp [stepEvent, evCreated, jget, applyEvent, isTypeTag, nonemptyString, hpid, hk, hn]

/-- Computing one step on a well-formed attach event with a valid file:
ensure the entry, then append the file. -/
theorem stepEvent_evAttached (t : PatientTable) (pid : Json) (f : String) (k : Key)
    (hpid : truthy pid = true) (hk : hashKey pid = some k) (hf : f ≠ "") :
    stepEvent t (evAttached pid (Json.str f)) =
      some (addFileT (ensureEntry t k pid) k f, []) := by
  simp [stepEvent, evAttached, jget, applyEvent, isTypeTag, nonemptyString, hpid, hk, hf]

/-- Computing one step on a creation event whose `Name` value fails the
validity test: only the entry creation happens. -/
theorem stepEvent_evCreated_invalid (t : PatientTable) (pid nm : Json) (k : Key)
    (hpid : truthy pid = true) (hk : hashKey pid = some k)
    (hnm : nonemptyString (some nm) = none) :
    stepEvent t (evCreated pid nm) = some (ensureEntry t k pid, []) := by
  simp [stepEvent, evCreated, jget, applyEvent, isTypeTag, hpid, hk, hnm]

/-- Computing one step on a creation event with no `Name` field at all:
only the entry creation happens. -/
theorem stepEvent_evCreatedNoName (t : PatientTable) (pid : Json) (k : Key)
    (hpid : truthy pid = true) (hk : hashKey pid = some k) :
    stepEvent t (evCreatedNoName pid) = some (ensureEntry t k pid, []) := by
  simp [stepEvent, evCreatedNoName, jget, applyEvent, isTypeTag, nonemptyString, hpid, hk]

/-- Two in-place mutations under the same key compose. -/
theorem modifyT_modifyT (t : PatientTable) (k : Key) (f g : PatientView → PatientView) :
    modifyT (modifyT t k f) k g = modifyT t k (fun v => g (f v)) := by
  induction t with
  | nil => rfl
  | cons p rest ih =>
    by_cases hp : p.1 = k
    · simp [modifyT_cons, hp, ih]
    · simp [modifyT_cons, hp, ih]

/-- Setting the name and appending a file under the same key commute. -/
theorem setName_addFile_comm (t : PatientTable) (k : Key) (n f : String) :
    setNameT (addFileT t k f) k n = addFileT (setNameT t k n) k f := by
  simp only [setNameT, addFileT, modifyT_modifyT]
  rfl

/-- Ensuring an entry right after mutating it in place does nothing. -/
theorem ensureEntry_modifyT_ensureEntry (t : PatientTable) (k : Key) (pid pid2 : Json)
    (g : PatientView → PatientView) :
    ensureEntry (modifyT (ensureEntry t k pid) k g) k pid2 =
      modifyT (ensureEntry t k pid) k g := by
  apply ensureEntry_of_isSome
  rw [tlookup_modifyT_self, tlookup_ensureEntry_self]
  rfl

/-- Swapping an adjacent attach/create pair for the same patient does not
change the fold at all: both orders ensure the entry, set the name and
append the file. -/
theorem processEventsAux_cons_of_step (t : PatientTable) (w : List Json) (e : Json)
    (es : List Json) (t1 : PatientTable) (w1 : List Json)
    (h : stepEvent t e = some (t1, w1)) :
    processEventsAux t w (e :: es) = processEventsAux t1 (w ++ w1) es := by
  rw [processEventsAux_cons, h]

/-- Swapping an adjacent attach/create pair for the same patient does not
change the fold at all: both orders ensure the entry, set the name and
append the file. -/
theorem fold_attach_create_comm (t : PatientTable) (w : List Json) (pid : Json)
    (f n : String) (k : Key) (rest : List Json)
    (hpid : truthy pid = true) (hk : hashKey pid = some k) (hf : f ≠ "") (hn : n ≠ "") :
    processEventsAux t w (evAttached pid (Json.str f) :: evCreated pid (Json.str n) :: rest) =
      processEventsAux t w (evCreated pid (Json.str n) :: evAttached pid (Json.str f) :: rest) := by
  rw [processEventsAux_cons_of_step _ _ _ _ _ _ (stepEvent_evAttached t pid f k hpid hk hf),
    processEventsAux_cons_of_step _ _ _ _ _ _ (stepEvent_evCreated _ pid n k hpid hk hn),
    processEventsAux_cons_of_step _ _ _ _ _ _ (stepEvent_evCreated t pid n k hpid hk hn),
    processEventsAux_cons_of_step _ _ _ _ _ _ (stepEvent_evAttached _ pid f k hpid hk hf)]
  simp only [setNameT, addFileT]
  rw [ensureEntry_modifyT_ensureEntry, ensureEntry_modifyT_ensureEntry,
    modifyT_modifyT, modifyT_modifyT]
  rfl

/-- The tail loop of `String.intercalate` appends the separator-joined
tail to its accumulator. -/
theorem intercalate_go_joinSep (as : List String) :
    ∀ acc : String, String.intercalate.go acc ", " as =
      match as with
      | [] => acc
      | _ :: _ => acc ++ ", " ++ joinSep as := by
  induction as with
  | nil =>
    intro acc
    rfl
  | cons a as ih =>
    intro acc
    show String.intercalate.go (acc ++ ", " ++ a) ", " as = _
    rw [ih (acc ++ ", " ++ a)]
    cases as with
    | nil => rfl
    | cons b bs => simp [joinSep, String.append_assoc]

/-- `", ".join` as the library computes it equals the specification's
first-then-separator-pairs join. -/
theorem intercalate_joinSep (fs : List String) :
    String.intercalate ", " fs = joinSep fs := by
  cases fs with
  | nil => rfl
  | cons a as =>
    show String.intercalate.go a ", " as = joinSep (a :: as)
    rw [intercalate_go_joinSep as a]
    cases as with
    | nil => rfl
    | cons b bs => simp [joinSep]

/-- The rendering loop agrees with the specification's description of it:
filter to the entries with files, in order, and format each. -/
theorem renderLines_eq_spec (t : PatientTable) : renderLines t = specRenderLines t := by
  induction t with
  | nil => rfl
  | cons kv rest ih =>
    by_cases h : kv.2.files.isEmpty
    · simp [renderLines, specRenderLines, List.filter_cons, h, ih]
    · simp [renderLines, specRenderLines, List.filter_cons, h, ih, intercalate_joinSep]

/-- C1, counterexample: the claim that the per-event loop never fails on
any top-level array is false.  An event whose payload carries a truthy but
unhashable `PatientID` (here a non-empty array) makes the loop raise
`TypeError` at the `patient_id not in patient_data` membership test, so the
fold aborts. -/
theorem C1_counterexample :
    (processEvents
      [Json.obj [("Payload", Json.obj [("PatientID", Json.arr [Json.null])])]]).2 = none := rfl

/-- C1, amended: the per-event loop completes without raising on every
decoded array in which each event that carries a truthy `PatientID` carries
a hashable one (not a list or dict); every other event-level anomaly —
non-record elements, missing or non-record payloads, and `PatientID`,
`Name` or `File` of any other type — is tolerated without error. -/
theorem C1_amended (es : List Json) (h : ∀ e ∈ es, hashableId e = true) :
    ((processEvents es).2).isSome :=
  foldAux_total es [] [] h

/-- C1 witness: the amended totality theorem applied to Scenario A. -/
theorem C1_witness : ((processEvents scenarioA).2).isSome :=
  C1_amended scenarioA (by decide)

/-- C9: folding is deterministic — two folds of the same event sequence,
each from its own empty table, produce identical results (same warnings,
same table, hence same key set, order, names and file lists). -/
theorem C9_deterministic (es : List Json) (r1 r2 : List Json × Option PatientTable)
    (h1 : r1 = processEvents es) (h2 : r2 = processEvents es) :
    r1 = r2 ∧ r1.2 = r2.2 ∧ r1.1 = r2.1 := by
  subst h1
  subst h2
  exact ⟨rfl, rfl, rfl⟩

/-- C9 witness: determinism applied to the Scenario A event list. -/
theorem C9_witness :
    processEvents scenarioA = processEvents scenarioA ∧
    (processEvents scenarioA).2 = (processEvents scenarioA).2 ∧
    (processEvents scenarioA).1 = (processEvents scenarioA).1 :=
  C9_deterministic scenarioA (processEvents scenarioA) (processEvents scenarioA) rfl rfl

/-- C10: frame property of one fold step — a successful step changes at
most the entry keyed by the event's own `PatientID`: every other key's
entry is untouched, no entry is ever removed, and no file list ever
shrinks or reorders (the old list is a prefix of the new one). -/
theorem C10_frame (t : PatientTable) (e : Json) (t' : PatientTable) (w : List Json)
    (h : stepEvent t e = some (t', w)) :
    (∀ k, eventKey e ≠ some k → tlookup t' k = tlookup t k) ∧
    (∀ k v, tlookup t k = some v → ∃ v', tlookup t' k = some v' ∧ v.files <+: v'.files) :=
  ⟨fun k hk => stepEvent_frame t e t' w h k hk,
   fun k v hv => stepEvent_mono t e t' w h k v hv⟩

/-- C10 witness: a creation event for `p1` leaves the entry of `p2`
untouched. -/
theorem C10_witness :
    tlookup [(Key.kstr "p2", PatientView.mk "B" ["x"]),
      (Key.kstr "p1", PatientView.mk "A" [])] (Key.kstr "p2") =
      tlookup [(Key.kstr "p2", PatientView.mk "B" ["x"])] (Key.kstr "p2") :=
  (C10_frame [(Key.kstr "p2", PatientView.mk "B" ["x"])]
    (evCreated (Json.str "p1") (Json.str "A"))
    [(Key.kstr "p2", PatientView.mk "B" ["x"]), (Key.kstr "p1", PatientView.mk "A" [])]
    [] rfl).1 (Key.kstr "p2") (by decide)

/-- C2: after a completed fold the table holds exactly the keys carried by
some event that is a dict with a dict payload whose `PatientID` is present
and truthy (non-empty, non-falsy) — no other keys exist — and a fold step
never removes an entry. -/
theorem C2_table_keys (es : List Json) (T : PatientTable)
    (h : (processEvents es).2 = some T) :
    (∀ k, (tlookup T k).isSome ↔ ∃ e ∈ es, eventKey e = some k) ∧
    (∀ (t : PatientTable) (e : Json) (t1 : PatientTable) (w1 : List Json),
      stepEvent t e = some (t1, w1) → ∀ k, (tlookup t k).isSome → (tlookup t1 k).isSome) := by
  constructor
  · intro k
    have hfull : processEventsAux [] [] es = ((processEvents es).1, some T) := by
      show processEvents es = _
      rw [← h]
    rw [foldAux_keys es [] [] (processEvents es).1 T k hfull]
    simp [tlookup_nil]
  · intro t e t1 w1 hs k hk
    exact (stepEvent_isSome_iff t e t1 w1 hs k).mpr (Or.inl hk)

/-- C2 witness: in the Scenario A table, the key `p1` is present iff some
Scenario A event carries it. -/
theorem C2_witness :
    (tlookup [(Key.kstr "p1", PatientView.mk "Olivia" ["d9392a98.tiff", "f796f432.tiff"]),
      (Key.kstr "p2", PatientView.mk "Sophie" ["ccd803fd.tiff"])] (Key.kstr "p1")).isSome ↔
      ∃ e ∈ scenarioA, eventKey e = some (Key.kstr "p1") :=
  (C2_table_keys scenarioA
    [(Key.kstr "p1", PatientView.mk "Olivia" ["d9392a98.tiff", "f796f432.tiff"]),
      (Key.kstr "p2", PatientView.mk "Sophie" ["ccd803fd.tiff"])] (by decide)).1
    (Key.kstr "p1")

/-- C5: the rendered output is exactly one line per patient with a
non-empty file list, in table insertion order, each line being the name,
then a colon-space, then the files joined with the fixed separator in
accumulation order with duplicates kept (the loop agrees with the
specification's filter-then-format description); and on Scenario A the
run writes exactly the expected two lines to stdout and exits 0. -/
theorem C5_rendering :
    (∀ t : PatientTable, renderLines t = specRenderLines t) ∧
    run "/cwd" "events.json" (ReadResult.ok (Json.arr scenarioA)) =
      RunOutcome.mk 0 "Olivia: d9392a98.tiff, f796f432.tiff\nSophie: ccd803fd.tiff\n"
        [] [] false :=
  ⟨renderLines_eq_spec, rfl⟩

/-- C6, counterexample: the claim that skipped events produce no
diagnostic output on stderr is false — a non-dict event is skipped but the
live warning at line 50 writes one stderr line for it, both in the fold
and through the whole run. -/
theorem C6_counterexample :
    (processEvents [Json.num 5]).1 = [Json.num 5] ∧
    (run "/cwd" "events.json" (ReadResult.ok (Json.arr [Json.num 5]))).eventWarnings ≠ [] :=
  ⟨rfl, fun hc => List.noConfusion hc⟩

/-- An event type value equal to one string literal is not equal to a
different one. -/
theorem isTypeTag_ne (et : Option Json) (s1 s2 : String)
    (h : isTypeTag et s1 = true) (hne : s1 ≠ s2) : isTypeTag et s2 = false := by
  cases et with
  | none => simp [isTypeTag] at h
  | some v =>
    cases v with
    | str tg =>
      have htg : tg = s1 := by simpa [isTypeTag] using h
      simp [isTypeTag, htg, hne]
    | null => simp [isTypeTag] at h
    | bool b => simp [isTypeTag] at h
    | num n => simp [isTypeTag] at h
    | arr xs => simp [isTypeTag] at h
    | obj kvs => simp [isTypeTag] at h

/-- C6, amended: an event that is not a dict is skipped with no error and
the table unchanged, but it does produce one stderr warning line; every
other per-event anomaly is dropped silently with no stderr output at all:
events with a missing or non-dict payload and events with a falsy or
absent `PatientID` leave the table unchanged, while a `PatientCreated`
with an invalid `Name`, a `PatientCaseSlideAttached` with an invalid
`File`, and an event of any other type do nothing beyond the lazy entry
creation. -/
theorem C6_amended (t : PatientTable) :
    (∀ e, isObjB e = false → stepEvent t e = some (t, [e])) ∧
    (∀ fields, (∀ pl, jget fields "Payload" ≠ some (Json.obj pl)) →
      stepEvent t (Json.obj fields) = some (t, [])) ∧
    (∀ fields pl, jget fields "Payload" = some (Json.obj pl) →
      truthy ((jget pl "PatientID").getD Json.null) = false →
      stepEvent t (Json.obj fields) = some (t, [])) ∧
    (∀ fields pl k, jget fields "Payload" = some (Json.obj pl) →
      truthy ((jget pl "PatientID").getD Json.null) = true →
      hashKey ((jget pl "PatientID").getD Json.null) = some k →
      isTypeTag (jget fields "EventType") "PatientCreated" = true →
      nonemptyString (jget pl "Name") = none →
      stepEvent t (Json.obj fields) =
        some (ensureEntry t k ((jget pl "PatientID").getD Json.null), [])) ∧
    (∀ fields pl k, jget fields "Payload" = some (Json.obj pl) →
      truthy ((jget pl "PatientID").getD Json.null) = true →
      hashKey ((jget pl "PatientID").getD Json.null) = some k →
      isTypeTag (jget fields "EventType") "PatientCaseSlideAttached" = true →
      nonemptyString (jget pl "File") = none →
      stepEvent t (Json.obj fields) =
        some (ensureEntry t k ((jget pl "PatientID").getD Json.null), [])) ∧
    (∀ fields pl k, jget fields "Payload" = some (Json.obj pl) →
      truthy ((jget pl "PatientID").getD Json.null) = true →
      hashKey ((jget pl "PatientID").getD Json.null) = some k →
      isTypeTag (jget fields "EventType") "PatientCreated" = false →
      isTypeTag (jget fields "EventType") "PatientCaseSlideAttached" = false →
      stepEvent t (Json.obj fields) =
        some (ensureEntry t k ((jget pl "PatientID").getD Json.null), [])) := by
  refine ⟨?_, ?_, ?_, ?_, ?_, ?_⟩
  · intro e he
    cases e with
    | null => rfl
    | bool b => rfl
    | num n => rfl
    | str s => rfl
    | arr xs => rfl
    | obj fields => simp [isObjB] at he
  · intro fields hnp
    simp only [stepEvent]
  · intro fields pl hp htr
    simp [stepEvent, hp, htr]
  · intro fields pl k hp htr hk htag hnm
    simp [stepEvent, hp, htr, hk, applyEvent, htag, hnm]
  · intro fields pl k hp htr hk htag hf
    have hother : isTypeTag (jget fields "EventType") "PatientCreated" = false :=
      isTypeTag_ne _ _ _ htag (by decide)
    simp [stepEvent, hp, htr, hk, applyEvent, htag, hother, hf]
  · intro fields pl k hp htr hk htag1 htag2
    simp [stepEvent, hp, htr, hk, applyEvent, htag1, htag2]

/-- C6 witness: the amended behaviour at concrete inputs — a number event
is skipped with a warning; a dict event without a payload and a creation
event with an empty-string `PatientID` are skipped silently leaving the
table unchanged; and a creation with a numeric `Name`, an attach with an
empty `File`, and an event of unknown type each create only the lazy
entry, with no warning. -/
theorem C6_witness :
    stepEvent [] (Json.num 5) = some ([], [Json.num 5]) ∧
    stepEvent [] (Json.obj [("EventType", Json.str "PatientCreated")]) = some ([], []) ∧
    stepEvent [] (evCreatedNoName (Json.str "")) = some ([], []) ∧
    stepEvent [] (evCreated (Json.str "p1") (Json.num 3)) =
      some (ensureEntry [] (Key.kstr "p1") (Json.str "p1"), []) ∧
    stepEvent [] (evAttached (Json.str "p1") (Json.str "")) =
      some (ensureEntry [] (Key.kstr "p1") (Json.str "p1"), []) ∧
    stepEvent [] (Json.obj [("EventType", Json.str "PatientDischarged"),
        ("Payload", Json.obj [("PatientID", Json.str "p1")])]) =
      some (ensureEntry [] (Key.kstr "p1") (Json.str "p1"), []) :=
  ⟨(C6_amended []).1 (Json.num 5) rfl,
   (C6_amended []).2.1 [("EventType", Json.str "PatientCreated")]
     (fun pl hc => by simp [jget] at hc),
   (C6_amended []).2.2.1 [("EventType", Json.str "PatientCreated"),
     ("Payload", Json.obj [("PatientID", Json.str "")])] [("PatientID", Json.str "")] rfl rfl,
   (C6_amended []).2.2.2.1 [("EventType", Json.str "PatientCreated"),
     ("Payload", Json.obj [("PatientID", Json.str "p1"), ("Name", Json.num 3)])]
     [("PatientID", Json.str "p1"), ("Name", Json.num 3)] (Key.kstr "p1")
     rfl rfl rfl rfl rfl,
   (C6_amended []).2.2.2.2.1 [("EventType", Json.str "PatientCaseSlideAttached"),
     ("Payload", Json.obj [("PatientID", Json.str "p1"), ("File", Json.str "")])]
     [("PatientID", Json.str "p1"), ("File", Json.str "")] (Key.kstr "p1")
     rfl rfl rfl rfl (by decide),
   (C6_amended []).2.2.2.2.2 [("EventType", Json.str "PatientDischarged"),
     ("Payload", Json.obj [("PatientID", Json.str "p1")])]
     [("PatientID", Json.str "p1")] (Key.kstr "p1")
     rfl rfl rfl (by decide) (by decide)⟩

/-- C7: the process exits 0 on success (writing the rendered summary, even
when it is empty) and exits 1 with nothing on stdout in each error case:
file not found, invalid JSON, any other read error, and a top-level
decoded value that is not a list. -/
theorem C7_exit_codes (cwd path msg : String) (v : Json) (es : List Json)
    (w : List Json) (T : PatientTable)
    (hva : isArrB v = false) (hfold : processEvents es = (w, some T)) :
    ((run cwd path ReadResult.notFound).exitCode = 1 ∧
      (run cwd path ReadResult.notFound).stdout = "") ∧
    ((run cwd path ReadResult.badJson).exitCode = 1 ∧
      (run cwd path ReadResult.badJson).stdout = "") ∧
    ((run cwd path (ReadResult.ioError msg)).exitCode = 1 ∧
      (run cwd path (ReadResult.ioError msg)).stdout = "") ∧
    ((run cwd path (ReadResult.ok v)).exitCode = 1 ∧
      (run cwd path (ReadResult.ok v)).stdout = "") ∧
    ((run cwd path (ReadResult.ok (Json.arr es))).exitCode = 0 ∧
      (run cwd path (ReadResult.ok (Json.arr es))).stdout = renderOut T) := by
  refine ⟨⟨rfl, rfl⟩, ⟨rfl, rfl⟩, ⟨rfl, rfl⟩, ?_, ?_⟩
  · cases v with
    | null => exact ⟨rfl, rfl⟩
    | bool b => exact ⟨rfl, rfl⟩
    | num n => exact ⟨rfl, rfl⟩
    | str s => exact ⟨rfl, rfl⟩
    | arr xs => simp [isArrB] at hva
    | obj kvs => exact ⟨rfl, rfl⟩
  · simp [run, hfold]

/-- C7 witness: the exit-code contract at concrete inputs, including a
success with an empty event list and hence zero output lines. -/
theorem C7_witness :
    ((run "/cwd" "in.json" ReadResult.notFound).exitCode = 1 ∧
      (run "/cwd" "in.json" ReadResult.notFound).stdout = "") ∧
    ((run "/cwd" "in.json" ReadResult.badJson).exitCode = 1 ∧
      (run "/cwd" "in.json" ReadResult.badJson).stdout = "") ∧
    ((run "/cwd" "in.json" (ReadResult.ioError "boom")).exitCode = 1 ∧
      (run "/cwd" "in.json" (ReadResult.ioError "boom")).stdout = "") ∧
    ((run "/cwd" "in.json" (ReadResult.ok (Json.obj []))).exitCode = 1 ∧
      (run "/cwd" "in.json" (ReadResult.ok (Json.obj []))).stdout = "") ∧
    ((run "/cwd" "in.json" (ReadResult.ok (Json.arr []))).exitCode = 0 ∧
      (run "/cwd" "in.json" (ReadResult.ok (Json.arr []))).stdout = renderOut []) :=
  C7_exit_codes "/cwd" "in.json" "boom" (Json.obj []) [] [] [] rfl rfl

/-- C8, counterexample: the claim that every fatal error message is
prefixed with the string `Error: ` is false — the catch-all read-failure
handler (line 38) writes a message beginning `An unexpected error
occurred...`, with no such prefix. -/
theorem C8_counterexample :
    (run "/cwd" "in.json" (ReadResult.ioError "boom")).stderrMsgs =
      ["An unexpected error occurred while reading the file: boom"] ∧
    ¬ ∃ rest : String, ("An unexpected error occurred while reading the file: boom" : String) =
      "Error: " ++ rest := by
  refine ⟨rfl, ?_⟩
  rintro ⟨rest, h⟩
  have hd := congrArg String.data h
  simp [String.data_append] at hd

/-- C8, amended: each fatal error is reported as a single stderr message;
the file-not-found, invalid-JSON and unexpected-shape messages are
prefixed `Error: ` and embed the input path resolved against the current
working directory (the shape message also names the actual type
encountered), while the catch-all read-failure message instead begins
`An unexpected error occurred while reading the file: ` followed by the
underlying cause. -/
theorem C8_messages (cwd path msg : String) (v : Json) (hva : isArrB v = false) :
    (run cwd path ReadResult.notFound).stderrMsgs =
      ["Error: " ++ ("Input file " ++ quoted (osPathJoin cwd path) ++ " not found.")] ∧
    (run cwd path ReadResult.badJson).stderrMsgs =
      ["Error: " ++ ("Invalid JSON in file " ++ quoted (osPathJoin cwd path) ++ ".")] ∧
    (run cwd path (ReadResult.ok v)).stderrMsgs =
      ["Error: " ++ ("Expected JSON array of events, but got " ++ pyTypeOf v ++
        " from " ++ quoted (osPathJoin cwd path) ++ ".")] ∧
    (run cwd path (ReadResult.ioError msg)).stderrMsgs =
      ["An unexpected error occurred while reading the file: " ++ msg] := by
  refine ⟨?_, ?_, ?_, rfl⟩
  · simp only [run, quoted, String.append_assoc]
    rw [show ("Error: Input file " : String) = "Error: " ++ "Input file " from rfl,
      String.append_assoc]
  · simp only [run, quoted, String.append_assoc]
    rw [show ("Error: Invalid JSON in file " : String) = "Error: " ++ "Invalid JSON in file "
      from rfl, String.append_assoc]
  · have hsplit : ("Error: Expected JSON array of events, but got " : String) =
        "Error: " ++ "Expected JSON array of events, but got " := rfl
    cases v with
    | null =>
      simp only [run, quoted, String.append_assoc]
      rw [hsplit, String.append_assoc]
    | bool b =>
      simp only [run, quoted, String.append_assoc]
      rw [hsplit, String.append_assoc]
    | num n =>
      simp only [run, quoted, String.append_assoc]
      rw [hsplit, String.append_assoc]
    | str s =>
      simp only [run, quoted, String.append_assoc]
      rw [hsplit, String.append_assoc]
    | arr xs => simp [isArrB] at hva
    | obj kvs =>
      simp only [run, quoted, String.append_assoc]
      rw [hsplit, String.append_assoc]

/-- C8 witness: the amended message contract at concrete inputs. -/
theorem C8_witness :
    (run "/home/user" "data.json" ReadResult.notFound).stderrMsgs =
      ["Error: " ++ ("Input file " ++ quoted (osPathJoin "/home/user" "data.json") ++
        " not found.")] ∧
    (run "/home/user" "data.json" ReadResult.badJson).stderrMsgs =
      ["Error: " ++ ("Invalid JSON in file " ++ quoted (osPathJoin "/home/user" "data.json") ++
        ".")] ∧
    (run "/home/user" "data.json" (ReadResult.ok (Json.obj []))).stderrMsgs =
      ["Error: " ++ ("Expected JSON array of events, but got " ++ pyTypeOf (Json.obj []) ++
        " from " ++ quoted (osPathJoin "/home/user" "data.json") ++ ".")] ∧
    (run "/home/user" "data.json" (ReadResult.ioError "disk")).stderrMsgs =
      ["An unexpected error occurred while reading the file: " ++ "disk"] :=
  C8_messages "/home/user" "data.json" "disk" (Json.obj []) rfl

/-- C3: an attach event that precedes the matching creation event still
files its attachment under the eventually-named patient — after a
completed fold of any sequence that attaches `f` for a patient and later
creates that patient with name `n`, the entry holds name `n` and contains
`f` — and the fold result is entirely unchanged by swapping the relative
order of the attach and creation events. -/
theorem C3_attach_before_create (pre mid post : List Json) (pid : Json) (f n : String)
    (k : Key) (T : PatientTable)
    (hpid : truthy pid = true) (hk : hashKey pid = some k) (hf : f ≠ "") (hn : n ≠ "")
    (hfold : (processEvents
      (pre ++ evAttached pid (Json.str f) :: (mid ++ [evCreated pid (Json.str n)]))).2
      = some T) :
    (∃ v, tlookup T k = some v ∧ v.name = n ∧ f ∈ v.files) ∧
    processEvents (pre ++ evAttached pid (Json.str f) :: evCreated pid (Json.str n) :: post) =
      processEvents (pre ++ evCreated pid (Json.str n) :: evAttached pid (Json.str f) :: post) := by
  constructor
  · have h0 : processEventsAux [] []
        (pre ++ evAttached pid (Json.str f) :: (mid ++ [evCreated pid (Json.str n)])) =
        ((processEvents
          (pre ++ evAttached pid (Json.str f) :: (mid ++ [evCreated pid (Json.str n)]))).1,
          some T) := by
      show processEvents _ = _
      rw [← hfold]
    rw [processEventsAux_append] at h0
    cases h1 : processEventsAux [] [] pre with
    | mk w1 ot1 =>
    rw [h1] at h0
    cases ot1 with
    | none => simp at h0
    | some t1 =>
      simp only [] at h0
      rw [processEventsAux_cons_of_step t1 w1 _ _ _ _
        (stepEvent_evAttached t1 pid f k hpid hk hf)] at h0
      rw [processEventsAux_append] at h0
      cases h2 : processEventsAux (addFileT (ensureEntry t1 k pid) k f) (w1 ++ []) mid with
      | mk w3 ot3 =>
      rw [h2] at h0
      cases ot3 with
      | none => simp at h0
      | some t3 =>
        simp only [] at h0
        rw [processEventsAux_cons_of_step t3 w3 _ _ _ _
          (stepEvent_evCreated t3 pid n k hpid hk hn), processEventsAux_nil] at h0
        have hT : setNameT (ensureEntry t3 k pid) k n = T :=
          Option.some.inj (congrArg Prod.snd h0)
        have hv2 : tlookup (addFileT (ensureEntry t1 k pid) k f) k =
            some (pushFile ((tlookup t1 k).getD (PatientView.mk (placeholder pid) [])) f) := by
          simp only [addFileT]
          rw [tlookup_modifyT_self, tlookup_ensureEntry_self]
          rfl
        obtain ⟨v3, hv3, hpre⟩ := foldAux_mono mid _ (w1 ++ []) w3 t3 k _ h2 hv2
        have hfinal : tlookup T k = some (withName v3 n) := by
          rw [← hT]
          simp only [setNameT]
          rw [tlookup_modifyT_self, tlookup_ensureEntry_self, hv3]
          rfl
        refine ⟨withName v3 n, hfinal, rfl, ?_⟩
        have hfmem : f ∈
            (pushFile ((tlookup t1 k).getD (PatientView.mk (placeholder pid) [])) f).files := by
          simp [pushFile]
        exact hpre.subset hfmem
  · show processEventsAux [] [] _ = processEventsAux [] [] _
    rw [processEventsAux_append, processEventsAux_append]
    cases h1 : processEventsAux [] [] pre with
    | mk w1 ot1 =>
    cases ot1 with
    | none => rfl
    | some t1 => exact fold_attach_create_comm t1 w1 pid f n k post hpid hk hf hn

/-- C3 witness: attaching `a.tiff` for `p1` and then creating `p1` as
`Amy` yields the file under the name `Amy`. -/
theorem C3_witness :
    ∃ v, tlookup [(Key.kstr "p1", PatientView.mk "Amy" ["a.tiff"])] (Key.kstr "p1") = some v ∧
      v.name = "Amy" ∧ "a.tiff" ∈ v.files :=
  (C3_attach_before_create [] [] [] (Json.str "p1") "a.tiff" "Amy" (Key.kstr "p1")
    [(Key.kstr "p1", PatientView.mk "Amy" ["a.tiff"])]
    rfl rfl (by decide) (by decide) (by decide)).1

/-- C4: the last `PatientCreated` event with a valid non-empty string name
wins — after a completed fold of any sequence containing a creation with
name `nA` and a later creation with name `nB` for the same patient, with
no later event writing that patient's name, the final name is `nB`,
regardless of the intervening events; and a creation event whose `Name` is
missing or invalid leaves an existing entry (in particular its name)
entirely unchanged. -/
theorem C4_last_create_wins (pre mid post : List Json) (pid : Json) (nA nB : String)
    (k : Key) (T : PatientTable)
    (hpid : truthy pid = true) (hk : hashKey pid = some k) (hA : nA ≠ "") (hB : nB ≠ "")
    (hpost : ∀ e ∈ post, writesName k e = false)
    (hfold : (processEvents
      (pre ++ evCreated pid (Json.str nA) :: (mid ++ evCreated pid (Json.str nB) :: post))).2
      = some T) :
    (∃ v, tlookup T k = some v ∧ v.name = nB) ∧
    (∀ (t : PatientTable) (nm : Json), (tlookup t k).isSome →
      nonemptyString (some nm) = none →
      stepEvent t (evCreated pid nm) = some (t, []) ∧
      stepEvent t (evCreatedNoName pid) = some (t, [])) := by
  constructor
  · have h0 : processEventsAux [] []
        (pre ++ evCreated pid (Json.str nA) :: (mid ++ evCreated pid (Json.str nB) :: post)) =
        ((processEvents
          (pre ++ evCreated pid (Json.str nA) ::
            (mid ++ evCreated pid (Json.str nB) :: post))).1, some T) := by
      show processEvents _ = _
      rw [← hfold]
    rw [processEventsAux_append] at h0
    cases h1 : processEventsAux [] [] pre with
    | mk w1 ot1 =>
    rw [h1] at h0
    cases ot1 with
    | none => simp at h0
    | some t1 =>
      simp only [] at h0
      rw [processEventsAux_cons_of_step t1 w1 _ _ _ _
        (stepEvent_evCreated t1 pid nA k hpid hk hA)] at h0
      rw [processEventsAux_append] at h0
      cases h2 : processEventsAux (setNameT (ensureEntry t1 k pid) k nA) (w1 ++ []) mid with
      | mk w3 ot3 =>
      rw [h2] at h0
      cases ot3 with
      | none => simp at h0
      | some t3 =>
        simp only [] at h0
        rw [processEventsAux_cons_of_step t3 w3 _ _ _ _
          (stepEvent_evCreated t3 pid nB k hpid hk hB)] at h0
        have hv4 : tlookup (setNameT (ensureEntry t3 k pid) k nB) k =
            some (withName ((tlookup t3 k).getD (PatientView.mk (placeholder pid) [])) nB) := by
          simp only [setNameT]
          rw [tlookup_modifyT_self, tlookup_ensureEntry_self]
          rfl
        obtain ⟨v', hv', hname⟩ := foldAux_name post _ (w3 ++ []) _ T k _ hpost h0 hv4
        exact ⟨v', hv', hname⟩
  · intro t nm hsome hnm
    constructor
    · rw [stepEvent_evCreated_invalid t pid nm k hpid hk hnm,
        ensureEntry_of_isSome t k pid hsome]
    · rw [stepEvent_evCreatedNoName t pid k hpid hk,
        ensureEntry_of_isSome t k pid hsome]

/-- C4 witness: creating `p1` as `A` then as `B` leaves the final name
`B`. -/
theorem C4_witness :
    ∃ v, tlookup [(Key.kstr "p1", PatientView.mk "B" [])] (Key.kstr "p1") = some v ∧
      v.name = "B" :=
  (C4_last_create_wins [] [] [] (Json.str "p1") "A" "B" (Key.kstr "p1")
    [(Key.kstr "p1", PatientView.mk "B" [])]
    rfl rfl (by decide) (by decide) (fun e he => absurd he (List.not_mem_nil e))
    (by decide)).1
